import Mathlib

/-!
Verification of the ATS resume checker core (src/app.py) against its
natural-language specification.  Strings are modelled as lists of
characters; the analysis covers the ASCII range, matching the spec,
which fixes purely ASCII-range character classification for the
tokenizer and keyword pipeline.  The score computation in the source is
performed with double-precision floats; it is modelled exactly below by
rational arithmetic with round-to-nearest-even at 53 bits of precision.
-/

namespace ATS

/-- Strings are modelled as lists of characters. -/
abbrev Str := List Char

/-! ### Tokenizer (clean_text, src/app.py lines 35-43) -/

/-- ASCII lowercase letter or digit, the token alphabet of the regex
class used in clean_text. -/
def isAlnumLower (c : Char) : Bool :=
  (97 ≤ c.toNat && c.toNat ≤ 122) || (48 ≤ c.toNat && c.toNat ≤ 57)

/-- ASCII uppercase letter. -/
def isUpperAscii (c : Char) : Bool := 65 ≤ c.toNat && c.toNat ≤ 90

/-- ASCII fragment of Python str.lower applied to one character. -/
def pyLower (c : Char) : Char :=
  if isUpperAscii c then Char.ofNat (c.toNat + 32) else c

/-- ASCII alphanumeric character (either case). -/
def pyIsAlnum (c : Char) : Bool := isAlnumLower c || isUpperAscii c

/-- Whitespace characters of the regex class backslash-s, ASCII range. -/
def isSpaceChar (c : Char) : Bool :=
  c == ' ' || c == '\t' || c == '\n' || c == '\r' || c == '\x0B' || c == '\x0C'

/-- Substitution step of clean_text: characters outside lowercase
alphanumerics and whitespace are replaced by a space. -/
def subbedChar (c : Char) : Char :=
  if isAlnumLower c || isSpaceChar c then c else ' '

/-- Whitespace split in the style of Python str.split with no
arguments: maximal runs of non-whitespace characters, in order. -/
def splitWsAux : Str → Str → List Str
  | [], acc => if acc.isEmpty then [] else [acc.reverse]
  | c :: cs, acc =>
    if isSpaceChar c then
      if acc.isEmpty then splitWsAux cs [] else acc.reverse :: splitWsAux cs []
    else splitWsAux cs (c :: acc)

/-- clean_text from the source: lowercase, replace characters outside
lowercase alphanumerics and whitespace by a space, split on whitespace,
keep only words of length greater than 2. -/
def clean_text (text : Str) : List Str :=
  ((splitWsAux ((text.map pyLower).map subbedChar) []).filter
    (fun w => decide (2 < w.length)))

/-! ### Lexicon (src/app.py lines 11-31) -/

/-- COMMON_STOP_WORDS from the source. -/
def COMMON_STOP_WORDS : List Str :=
  (["and", "the", "for", "with", "you", "that", "are", "this", "from", "will",
    "have", "your", "our", "can", "all", "but", "not", "of", "in", "to", "is",
    "a", "an", "or", "as", "be", "by", "on", "at", "it"]).map String.toList

/-- TECH_SKILLS from the source. -/
def TECH_SKILLS : List Str :=
  (["javascript", "python", "java", "react", "angular", "vue", "html", "css",
    "typescript", "sql", "aws", "docker", "kubernetes", "git", "jira", "agile",
    "scrum", "communication", "leadership", "redux", "node", "express",
    "mongodb", "ci/cd", "frontend", "backend", "fullstack", "api", "rest",
    "graphql", "machine learning", "data analysis", "go", "rust", "c++", "c#",
    "azure", "gcp", "terraform", "jenkins", "linux", "bash",
    "design patterns"]).map String.toList

/-- SOFT_SKILLS from the source. -/
def SOFT_SKILLS : List Str :=
  (["communication", "leadership", "teamwork", "agile", "scrum",
    "collaboration", "problem-solving", "adaptability", "time management",
    "critical thinking", "creativity"]).map String.toList

/-- Entries of TECH_SKILLS that can never be produced by the tokenizer
(they contain spaces or punctuation, or have length at most 2). -/
def EXCLUDED : List Str :=
  (["machine learning", "data analysis", "design patterns", "ci/cd",
    "c++", "c#", "go"]).map String.toList

/-! ### Keyword selector (src/app.py lines 136-152) -/

/-- Insertion into an ordered set modelled as a duplicate-free list. -/
def addUnique (l : List Str) (x : Str) : List Str :=
  if x ∈ l then l else l ++ [x]

/-- First pass of the selector: every JD token that is a known tech
skill is added to the target set. -/
def skillPass (jdWords : List Str) : List Str :=
  jdWords.foldl (fun acc w => if w ∈ TECH_SKILLS then addUnique acc w else acc) []

/-- One counting step of collections.Counter construction. -/
def bump : List (Str × Nat) → Str → List (Str × Nat)
  | [], w => [(w, 1)]
  | (x, n) :: rest, w =>
    if x = w then (x, n + 1) :: rest else (x, n) :: bump rest w

/-- Counter over a word list: keys in first-seen order with their
occurrence counts, as a Python dict-backed Counter iterates. -/
def jdCounter (ws : List Str) : List (Str × Nat) := ws.foldl bump []

/-- Stable insertion (descending by count) used to model the stable
sort underlying Counter.most_common. -/
def insertDesc (x : Str × Nat) : List (Str × Nat) → List (Str × Nat)
  | [] => [x]
  | y :: ys => if x.2 < y.2 then y :: insertDesc x ys else x :: y :: ys

/-- Stable sort, descending by count; ties keep first-seen order. -/
def sortDesc : List (Str × Nat) → List (Str × Nat)
  | [] => []
  | x :: xs => insertDesc x (sortDesc xs)

/-- Counter.most_common n: the n most frequent keys, ties broken by
first-seen order. -/
def mostCommon (n : Nat) (c : List (Str × Nat)) : List Str :=
  ((sortDesc c).take n).map Prod.fst

/-- Target keyword derivation from the JD token list (the inline code
of analyze, steps 1-2): known skills first; if fewer than 5, the 10
most common non-stop-word tokens are added. -/
def selectTargetKeywords (jdWords : List Str) : List Str :=
  if (skillPass jdWords).length < 5 then
    (mostCommon 10 (jdCounter (jdWords.filter
      (fun w => ! decide (w ∈ COMMON_STOP_WORDS))))).foldl addUnique (skillPass jdWords)
  else skillPass jdWords

/-! ### Matcher (src/app.py lines 154-166) -/

/-- Keyword hit test from the source: the keyword is a resume token, or
occurs as a literal substring of the lowercased raw resume text. -/
def keywordHit (resumeTokens : List Str) (lowerRaw : Str) (k : Str) : Bool :=
  decide (k ∈ resumeTokens) || decide (k <:+: lowerRaw)

/-- Found keywords, in target order. -/
def matchFound (resumeTokens : List Str) (resumeRaw : Str) (targets : List Str) : List Str :=
  targets.filter (keywordHit resumeTokens (resumeRaw.map pyLower))

/-- Missing keywords, in target order. -/
def matchMissing (resumeTokens : List Str) (resumeRaw : Str) (targets : List Str) : List Str :=
  targets.filter (fun k => ! keywordHit resumeTokens (resumeRaw.map pyLower) k)

/-! ### Score (src/app.py lines 168-173)

The source computes int((len(found) / total) * 100) with Python floats.
Both the division and the multiplication are IEEE-754 double operations:
correctly rounded to 53 significant bits, round-to-nearest, ties to
even.  The model below reproduces that rounding exactly on rationals
(the values reached here are far inside the normal range of doubles).
-/

/-- Constant 2 to the 52nd power. -/
def TWO52 : Nat := 4503599627370496

/-- Constant 2 to the 53rd power. -/
def TWO53 : Nat := 9007199254740992

/-- Round the rational n / d to the nearest integer, ties to even. -/
def roundHalfEven (n d : Nat) : Nat :=
  if 2 * (n % d) < d then n / d
  else if d < 2 * (n % d) then n / d + 1
  else if (n / d) % 2 = 0 then n / d else n / d + 1

/-- Scale the positive rational n / d by a power of two into the
binade of 53-bit significands; the fuel far exceeds the exponent range
of the doubles reached by the score computation. -/
def normPos (fuel : Nat) (n d : Nat) (s : Int) : Nat × Nat × Int :=
  match fuel with
  | 0 => (n, d, s)
  | fuel' + 1 =>
    if n < TWO52 * d then normPos fuel' (2 * n) d (s - 1)
    else if TWO53 * d ≤ n then normPos fuel' n (2 * d) (s + 1)
    else (n, d, s)

/-- Correct rounding of the nonnegative rational n / d to a
double-precision value, returned as a numerator-denominator pair whose
denominator is a power of two. -/
def roundPair (n d : Nat) : Nat × Nat :=
  if n = 0 then (0, 1)
  else
    if 0 ≤ (normPos 4400 n d 0).2.2 then
      (roundHalfEven (normPos 4400 n d 0).1 (normPos 4400 n d 0).2.1 *
        2 ^ (normPos 4400 n d 0).2.2.toNat, 1)
    else
      (roundHalfEven (normPos 4400 n d 0).1 (normPos 4400 n d 0).2.1,
        2 ^ (-(normPos 4400 n d 0).2.2).toNat)

/-- Score computation from the source: 0 for an empty target set, and
otherwise int((found / total) * 100) where the division and the
multiplication are correctly rounded double operations and the final
conversion truncates toward zero. -/
def computeScore (found total : Nat) : Nat :=
  if total = 0 then 0
  else
    (roundPair ((roundPair found total).1 * 100) (roundPair found total).2).1 /
    (roundPair ((roundPair found total).1 * 100) (roundPair found total).2).2

/-- Score of the matcher on given tokens, raw text and target list. -/
def matchScore (resumeTokens : List Str) (resumeRaw : Str) (targets : List Str) : Nat :=
  computeScore (matchFound resumeTokens resumeRaw targets).length targets.length

/-! ### Formatting auditor (src/app.py lines 45-95)

Each regex search is embedded declaratively: a search succeeds exactly
when some decomposition of the text matches the pattern, which is what
the backtracking engine decides.  Word characters follow the ASCII
fragment of the regex class backslash-w.
-/

/-- ASCII word character: letter, digit or underscore. -/
def isWordChar (c : Char) : Bool :=
  (97 ≤ c.toNat && c.toNat ≤ 122) || (65 ≤ c.toNat && c.toNat ≤ 90) ||
  (48 ≤ c.toNat && c.toNat ≤ 57) || c == '_'

/-- Character allowed in the local part and domain of the email regex:
word character, dot or hyphen. -/
def isLocalChar (c : Char) : Bool := isWordChar c || c == '.' || c == '-'

/-- ASCII letter. -/
def isAlphaChar (c : Char) : Bool :=
  (97 ≤ c.toNat && c.toNat ≤ 122) || (65 ≤ c.toNat && c.toNat ≤ 90)

/-- ASCII digit. -/
def isDigitChar (c : Char) : Bool := 48 ≤ c.toNat && c.toNat ≤ 57

/-- All decompositions of a list into two adjacent parts. -/
def splits (s : Str) : List (Str × Str) :=
  (List.range (s.length + 1)).map (fun i => (s.take i, s.drop i))

/-- Match one literal character at the head, then continue. -/
def guardChar (ch : Char) (f : Str → Bool) : Str → Bool
  | [] => false
  | c :: rest => (c == ch) && f rest

/-- Does the first character exist and count as a word character. -/
def headIsWord (s : Str) : Bool :=
  match s with
  | c :: _ => isWordChar c
  | [] => false

/-- Does the last character exist and count as a word character. -/
def lastIsWord (s : Str) : Bool :=
  match s.getLast? with
  | some c => isWordChar c
  | none => false

/-- Conditions on one candidate decomposition of the email regex:
nonempty local part and domain over word characters, dots and hyphens,
a TLD of 2 to 4 word characters, and the two word-boundary anchors of
the pattern. -/
def emailTail (pre l d t post : Str) : Bool :=
  (!l.isEmpty) && l.all isLocalChar && (!d.isEmpty) && d.all isLocalChar &&
  decide (2 ≤ t.length) && decide (t.length ≤ 4) && t.all isWordChar &&
  (lastIsWord pre != headIsWord l) && (!headIsWord post)

/-- Email search of check 1, embedding the regex with its word-boundary
anchors, digit-or-letter TLD, run on the raw text. -/
def hasEmail (text : Str) : Bool :=
  (splits text).any fun pr =>
    (splits pr.2).any fun lr =>
      guardChar '@' (fun r2 =>
        (splits r2).any fun dr =>
          guardChar '.' (fun r3 =>
            (splits r3).any fun tp =>
              emailTail pr.1 lr.1 dr.1 tp.1 tp.2) dr.2) lr.2

/-- Email pattern as worded by the specification: a substring made of a
local part of word characters, dots and hyphens, an at sign, a domain
of word characters, dots and hyphens, a dot, and a TLD of 2 to 4
letters; no word-boundary requirement is stated. -/
def specEmailCheck (text : Str) : Bool :=
  (splits text).any fun pr =>
    (splits pr.2).any fun lr =>
      guardChar '@' (fun r2 =>
        (splits r2).any fun dr =>
          guardChar '.' (fun r3 =>
            (splits r3).any fun tp =>
              (!lr.1.isEmpty) && lr.1.all isLocalChar &&
              (!dr.1.isEmpty) && dr.1.all isLocalChar &&
              decide (2 ≤ tp.1.length) && decide (tp.1.length ≤ 4) &&
              tp.1.all isAlphaChar) dr.2) lr.2

/-- Declarative reading of the email search: some decomposition of the
text matches the pattern of the regex, boundary anchors included. -/
def EmailMatch (text : Str) : Prop :=
  ∃ pre l d t post,
    text = pre ++ (l ++ '@' :: (d ++ '.' :: (t ++ post))) ∧
    l ≠ [] ∧ (∀ c ∈ l, isLocalChar c = true) ∧
    d ≠ [] ∧ (∀ c ∈ d, isLocalChar c = true) ∧
    2 ≤ t.length ∧ t.length ≤ 4 ∧ (∀ c ∈ t, isWordChar c = true) ∧
    lastIsWord pre ≠ headIsWord l ∧ headIsWord post = false

/-- Separator class of the phone regex: hyphen, dot or whitespace. -/
def sepChar (c : Char) : Bool := c == '-' || c == '.' || isSpaceChar c

/-- Optional single character: both the skipping and, when the head
matches, the consuming continuation. -/
def optChar (p : Char → Bool) (s : Str) : List Str :=
  match s with
  | c :: rest => if p c then [c :: rest, rest] else [c :: rest]
  | [] => [[]]

/-- Consume exactly n digits. -/
def takeDigits : Nat → Str → Option Str
  | 0, s => some s
  | _ + 1, [] => none
  | n + 1, c :: s => if isDigitChar c then takeDigits n s else none

/-- Phone search of check 2: optional opening parenthesis, 3 digits,
optional closing parenthesis, optional separator, 3 digits, optional
separator, 4 digits. -/
def hasPhone (text : Str) : Bool :=
  (splits text).any fun pr =>
    (optChar (fun c => c == '(') pr.2).any fun r1 =>
      match takeDigits 3 r1 with
      | none => false
      | some r2 =>
        (optChar (fun c => c == ')') r2).any fun r3 =>
          (optChar sepChar r3).any fun r4 =>
            match takeDigits 3 r4 with
            | none => false
            | some r5 =>
              (optChar sepChar r5).any fun r6 => (takeDigits 4 r6).isSome

/-- Action verb list of check 3. -/
def VERBS : List Str :=
  (["led", "managed", "developed", "created", "built", "designed",
    "improved", "optimized", "engineered", "architected"]).map String.toList

/-- Verb search of check 3: one of the verbs as a whole word,
case-insensitively. -/
def hasVerbs (text : Str) : Bool :=
  (splits text).any fun pr =>
    (splits pr.2).any fun wp =>
      decide (wp.1.map pyLower ∈ VERBS) && (!lastIsWord pr.1) && (!headIsWord wp.2)

/-- Unit words of the second metrics pattern. -/
def METRIC_UNITS : List Str :=
  (["users", "clients", "percent", "increase", "reduction"]).map String.toList

/-- First metrics pattern: digits followed by a percent sign, or a
dollar sign followed by a digit. -/
def hasMetricsA (text : Str) : Bool :=
  (splits text).any fun pr =>
    (match pr.2 with
     | '$' :: c :: _ => isDigitChar c
     | _ => false)
    ||
    ((splits pr.2).any fun dp =>
      (!dp.1.isEmpty) && dp.1.all isDigitChar && (dp.2.head? == some '%'))

/-- Second metrics pattern: a number at a word boundary, whitespace,
then one of the unit words, case-insensitively. -/
def hasMetricsB (text : Str) : Bool :=
  (splits text).any fun pr =>
    (!lastIsWord pr.1) &&
    ((splits pr.2).any fun dp =>
      (!dp.1.isEmpty) && dp.1.all isDigitChar &&
      ((splits dp.2).any fun sp =>
        (!sp.1.isEmpty) && sp.1.all isSpaceChar &&
        (METRIC_UNITS.any fun u => u.isPrefixOf (sp.2.map pyLower))))

/-- Metrics search of check 4. -/
def hasMetrics (text : Str) : Bool := hasMetricsA text || hasMetricsB text

/-- One formatting check record. -/
structure FormatCheck where
  label : Str
  pass : Bool
  msgFail : Str

/-- check_formatting_rules from the source: the fixed ordered list of
six checks over the raw resume text. -/
def check_formatting_rules (text : Str) : List FormatCheck :=
  [⟨"Contact Email".toList, hasEmail text, "No email detected".toList⟩,
   ⟨"Phone Number".toList, hasPhone text, "No phone number".toList⟩,
   ⟨"Action Verbs".toList, hasVerbs text, "Add verbs like \x27Managed\x27".toList⟩,
   ⟨"Metrics/Numbers".toList, hasMetrics text,
     "Include measurable achievements (e.g., \x2720%\x27)".toList⟩,
   ⟨"Consistent Formatting".toList, true, "Ensure uniform font and style".toList⟩,
   ⟨"No Typos".toList, true, "Proofread for spelling errors".toList⟩]

/-! ### Tip generator (src/app.py lines 97-113) -/

/-- Low-score tip. -/
def TIP_LOW : Str :=
  "Your resume needs significant alignment with the job description.".toList

/-- Mid-score tip. -/
def TIP_MID : Str :=
  "You\x27re close! focus on adding specific technical keywords.".toList

/-- High-score tip. -/
def TIP_HIGH : Str :=
  "Great match! Focus on readability and formatting now.".toList

/-- Fixed action-verb tip. -/
def TIP_VERBS : Str :=
  "Ensure you use \x27Action Verbs\x27 at the start of every bullet point.".toList

/-- Fixed quantification tip. -/
def TIP_QUANT : Str :=
  "Quantify your experience with numbers (e.g., \x27Reduced latency by 20%\x27).".toList

/-- Tip naming up to the first three missing keywords, comma-joined. -/
def missingTip (missing : List Str) : Str :=
  "Try to weave in these top missing keywords: ".toList ++
    List.intercalate ", ".toList (missing.take 3) ++ ".".toList

/-- generate_optimization_tips from the source. -/
def generate_optimization_tips (score : Int) (missing : List Str) : List Str :=
  (if score < 50 then [TIP_LOW] else if score < 80 then [TIP_MID] else [TIP_HIGH])
  ++ (if missing.isEmpty then [] else [missingTip missing])
  ++ [TIP_VERBS, TIP_QUANT]

/-! ### Concrete inputs used by counterexamples -/

/-- Three-character keyword code for index i below 100. -/
def mkCode (i : Nat) : Str := ['q', Char.ofNat (48 + i / 10), Char.ofNat (48 + i % 10)]

/-- Fifty distinct target keywords. -/
def cexTargets : List Str := (List.range 50).map mkCode

/-- Resume text containing exactly the first 29 of the 50 keywords. -/
def cexResume : Str := List.intercalate [' '] ((List.range 29).map mkCode)

/-! ### Theorems -/

/-- Lowercasing fixes characters that are already lowercase
alphanumeric. -/
theorem pyLower_fix {c : Char} (h : isAlnumLower c = true) : pyLower c = c := by
  have hu : ¬ (isUpperAscii c = true) := by
    simp only [isAlnumLower, Bool.or_eq_true, Bool.and_eq_true,
      decide_eq_true_eq] at h
    simp only [isUpperAscii, Bool.and_eq_true, decide_eq_true_eq, not_and]
    omega
  simp [pyLower, hu]

/-- Lowercasing fixes strings of lowercase alphanumerics. -/
theorem map_pyLower_fix : ∀ (k : Str), (∀ c ∈ k, isAlnumLower c = true) →
    k.map pyLower = k := by
  intro k hk
  induction k with
  | nil => rfl
  | cons c cs ih =>
    simp only [List.map_cons]
    rw [pyLower_fix (hk c (by simp)), ih (fun c hc => hk c (by simp [hc]))]

/-- Characters of words produced by the whitespace split come from the
input (and are not whitespace) or from the accumulator. -/
theorem splitWsAux_chars : ∀ (s acc w : Str), w ∈ splitWsAux s acc →
    ∀ c ∈ w, (c ∈ s ∧ isSpaceChar c = false) ∨ c ∈ acc := by
  intro s
  induction s with
  | nil =>
    intro acc w hw c hc
    right
    simp only [splitWsAux] at hw
    split at hw
    · simp at hw
    · simp only [List.mem_singleton] at hw
      subst hw
      exact List.mem_reverse.mp hc
  | cons a s ih =>
    intro acc w hw c hc
    simp only [splitWsAux] at hw
    by_cases hsp : isSpaceChar a = true
    · rw [if_pos hsp] at hw
      split at hw
      · rcases ih [] w hw c hc with ⟨hcs, hns⟩ | hfalse
        · exact Or.inl ⟨List.mem_cons_of_mem a hcs, hns⟩
        · simp at hfalse
      · rcases List.mem_cons.mp hw with rfl | hw'
        · right
          exact List.mem_reverse.mp hc
        · rcases ih [] w hw' c hc with ⟨hcs, hns⟩ | hfalse
          · exact Or.inl ⟨List.mem_cons_of_mem a hcs, hns⟩
          · simp at hfalse
    · rw [if_neg hsp] at hw
      rcases ih (a :: acc) w hw c hc with ⟨hcs, hns⟩ | hacc
      · exact Or.inl ⟨List.mem_cons_of_mem a hcs, hns⟩
      · rcases List.mem_cons.mp hacc with rfl | hacc'
        · exact Or.inl ⟨List.mem_cons_self _ _, by simpa using hsp⟩
        · exact Or.inr hacc'

/-- The whitespace split of an all-whitespace string is empty. -/
theorem splitWsAux_spaces : ∀ (s : Str), (∀ c ∈ s, isSpaceChar c = true) →
    splitWsAux s [] = [] := by
  intro s
  induction s with
  | nil => intro _; rfl
  | cons a s ih =>
    intro h
    have ha : isSpaceChar a = true := h a (by simp)
    simp only [splitWsAux, ha, if_true, List.isEmpty_nil]
    exact ih (fun c hc => h c (by simp [hc]))

/-- Every token produced by clean_text has length greater than 2 and
consists of lowercase alphanumerics only. -/
theorem clean_text_props {t : Str} : ∀ w ∈ clean_text t,
    2 < w.length ∧ ∀ c ∈ w, isAlnumLower c = true := by
  intro w hw
  unfold clean_text at hw
  rw [List.mem_filter] at hw
  obtain ⟨hmem, hlen⟩ := hw
  refine ⟨by simpa using hlen, ?_⟩
  intro c hc
  rcases splitWsAux_chars _ _ _ hmem c hc with ⟨hcs, hns⟩ | hfalse
  · rcases List.mem_map.mp hcs with ⟨c₀, _, rfl⟩
    unfold subbedChar at hns ⊢
    by_cases hb : (isAlnumLower c₀ || isSpaceChar c₀) = true
    · rw [if_pos hb] at hns ⊢
      rcases Bool.or_eq_true_iff.mp hb with h1 | h2
      · exact h1
      · simp [h2] at hns
    · rw [if_neg hb] at hns
      exact absurd hns (by decide)
  · simp at hfalse

/-- clean_text of a string without ASCII alphanumerics is empty. -/
theorem clean_text_nil {t : Str} (h : ∀ c ∈ t, pyIsAlnum c = false) :
    clean_text t = [] := by
  have hx : splitWsAux ((t.map pyLower).map subbedChar) [] = [] := by
    apply splitWsAux_spaces
    intro c hc
    rcases List.mem_map.mp hc with ⟨c₁, hc₁, rfl⟩
    rcases List.mem_map.mp hc₁ with ⟨c₀, hc₀, rfl⟩
    have h0 := h c₀ hc₀
    rw [pyIsAlnum, Bool.or_eq_false_iff] at h0
    have hlow : pyLower c₀ = c₀ := by simp [pyLower, h0.2]
    rw [hlow]
    simp only [subbedChar, h0.1, Bool.false_or]
    by_cases hs : isSpaceChar c₀ = true
    · rw [if_pos hs]
      exact hs
    · rw [if_neg hs]
      decide
  unfold clean_text
  rw [hx]
  rfl

/-- Claim C5: tokens of clean_text are lowercase alphanumeric words of
length greater than 2, and inputs without alphanumeric characters
tokenize to the empty sequence. -/
theorem tokenizer_tokens (t : Str) :
    (∀ w ∈ clean_text t, 2 < w.length ∧ ∀ c ∈ w, isAlnumLower c = true) ∧
    ((∀ c ∈ t, pyIsAlnum c = false) → clean_text t = []) :=
  ⟨fun w hw => clean_text_props w hw, fun h => clean_text_nil h⟩

/-- Witness for tokenizer_tokens on concrete inputs. -/
theorem tokenizer_tokens_wit :
    (2 < ("cde".toList).length ∧ ∀ c ∈ "cde".toList, isAlnumLower c = true) ∧
    clean_text ("?! .".toList) = [] :=
  ⟨(tokenizer_tokens ("ab cde!".toList)).1 ("cde".toList) (by decide),
   (tokenizer_tokens ("?! .".toList)).2 (by decide)⟩

/-- Membership in an ordered-set insertion. -/
theorem mem_addUnique {l : List Str} {x k : Str} :
    k ∈ addUnique l x ↔ k ∈ l ∨ k = x := by
  by_cases h : x ∈ l
  · simp only [addUnique, if_pos h]
    constructor
    · exact Or.inl
    · rintro (hk | rfl)
      · exact hk
      · exact h
  · simp [addUnique, if_neg h]

/-- Membership after folding ordered-set insertions. -/
theorem mem_foldl_addUnique : ∀ (l t : List Str) (k : Str),
    k ∈ l.foldl addUnique t ↔ k ∈ t ∨ k ∈ l := by
  intro l
  induction l with
  | nil =>
    intro t k
    simp
  | cons x xs ih =>
    intro t k
    simp only [List.foldl_cons, List.mem_cons]
    rw [ih, mem_addUnique]
    tauto

/-- Membership in the skill pass fold. -/
theorem mem_skillPass_aux : ∀ (ws acc : List Str) (k : Str),
    k ∈ ws.foldl (fun acc w => if w ∈ TECH_SKILLS then addUnique acc w else acc) acc ↔
      k ∈ acc ∨ (k ∈ ws ∧ k ∈ TECH_SKILLS) := by
  intro ws
  induction ws with
  | nil =>
    intro acc k
    simp
  | cons w ws ih =>
    intro acc k
    simp only [List.foldl_cons]
    rw [ih]
    by_cases hw : w ∈ TECH_SKILLS
    · simp only [if_pos hw, mem_addUnique, List.mem_cons]
      constructor
      · rintro ((hk | rfl) | ⟨hkws, hsk⟩)
        · exact Or.inl hk
        · exact Or.inr ⟨Or.inl rfl, hw⟩
        · exact Or.inr ⟨Or.inr hkws, hsk⟩
      · rintro (hk | ⟨rfl | hkws, hsk⟩)
        · exact Or.inl (Or.inl hk)
        · exact Or.inl (Or.inr rfl)
        · exact Or.inr ⟨hkws, hsk⟩
    · simp only [if_neg hw, List.mem_cons]
      constructor
      · rintro (hk | ⟨hkws, hsk⟩)
        · exact Or.inl hk
        · exact Or.inr ⟨Or.inr hkws, hsk⟩
      · rintro (hk | ⟨rfl | hkws, hsk⟩)
        · exact Or.inl hk
        · exact absurd hsk hw
        · exact Or.inr ⟨hkws, hsk⟩

/-- The skill pass collects exactly the JD tokens that are known
skills. -/
theorem mem_skillPass {ws : List Str} {k : Str} :
    k ∈ skillPass ws ↔ k ∈ ws ∧ k ∈ TECH_SKILLS := by
  unfold skillPass
  rw [mem_skillPass_aux]
  simp

/-- Keys reached by one counting step. -/
theorem mem_bump : ∀ (l : List (Str × Nat)) (w : Str) (p : Str × Nat),
    p ∈ bump l w → p.1 = w ∨ ∃ m, (p.1, m) ∈ l := by
  intro l
  induction l with
  | nil =>
    intro w p hp
    simp only [bump, List.mem_singleton] at hp
    subst hp
    exact Or.inl rfl
  | cons x rest ih =>
    intro w p hp
    obtain ⟨xk, xn⟩ := x
    simp only [bump] at hp
    split at hp
    · rename_i hxw
      rcases List.mem_cons.mp hp with rfl | hrest
      · exact Or.inl hxw
      · refine Or.inr ⟨p.2, ?_⟩
        rw [Prod.mk.eta]
        exact List.mem_cons_of_mem _ hrest
    · rcases List.mem_cons.mp hp with rfl | hrest
      · exact Or.inr ⟨xn, by simp⟩
      · rcases ih w p hrest with h1 | ⟨m, hm⟩
        · exact Or.inl h1
        · exact Or.inr ⟨m, List.mem_cons_of_mem _ hm⟩

/-- Keys of the counter fold come from the counted words or the
accumulator. -/
theorem mem_foldl_bump : ∀ (ws : List Str) (acc : List (Str × Nat)) (p : Str × Nat),
    p ∈ ws.foldl bump acc → p.1 ∈ ws ∨ ∃ m, (p.1, m) ∈ acc := by
  intro ws
  induction ws with
  | nil =>
    intro acc p hp
    refine Or.inr ⟨p.2, ?_⟩
    rw [Prod.mk.eta]
    exact hp
  | cons w ws ih =>
    intro acc p hp
    simp only [List.foldl_cons] at hp
    rcases ih (bump acc w) p hp with h1 | ⟨m, hm⟩
    · exact Or.inl (List.mem_cons_of_mem _ h1)
    · rcases mem_bump acc w (p.1, m) hm with h2 | ⟨m', hm'⟩
      · left
        rw [show p.1 = w from h2]
        exact List.mem_cons_self _ _
      · exact Or.inr ⟨m', hm'⟩

/-- Counter keys are counted words. -/
theorem mem_jdCounter {ws : List Str} {p : Str × Nat}
    (hp : p ∈ jdCounter ws) : p.1 ∈ ws := by
  rcases mem_foldl_bump ws [] p hp with h | ⟨m, hm⟩
  · exact h
  · simp at hm

/-- Membership through the stable descending insertion. -/
theorem mem_insertDesc (x : Str × Nat) : ∀ (l : List (Str × Nat)) (p : Str × Nat),
    p ∈ insertDesc x l ↔ p = x ∨ p ∈ l := by
  intro l
  induction l with
  | nil =>
    intro p
    simp [insertDesc]
  | cons y ys ih =>
    intro p
    simp only [insertDesc]
    split
    · rw [List.mem_cons, ih p, List.mem_cons]
      tauto
    · exact List.mem_cons

/-- The stable descending sort is a permutation membership-wise. -/
theorem mem_sortDesc : ∀ (l : List (Str × Nat)) (p : Str × Nat),
    p ∈ sortDesc l ↔ p ∈ l := by
  intro l
  induction l with
  | nil =>
    intro p
    simp [sortDesc]
  | cons x xs ih =>
    intro p
    simp only [sortDesc]
    rw [mem_insertDesc, ih]
    exact List.mem_cons.symm

/-- Elements of most_common are counter keys. -/
theorem mem_mostCommon {n : Nat} {c : List (Str × Nat)} {k : Str}
    (hk : k ∈ mostCommon n c) : ∃ m, (k, m) ∈ c := by
  unfold mostCommon at hk
  rcases List.mem_map.mp hk with ⟨p, hp, rfl⟩
  have hp' : p ∈ sortDesc c := List.take_subset _ _ hp
  rw [mem_sortDesc] at hp'
  refine ⟨p.2, ?_⟩
  rw [Prod.mk.eta]
  exact hp'

/-- Every derived target keyword is a JD token. -/
theorem mem_selectTargetKeywords {ws : List Str} {k : Str}
    (h : k ∈ selectTargetKeywords ws) : k ∈ ws := by
  unfold selectTargetKeywords at h
  split at h
  · rw [mem_foldl_addUnique] at h
    rcases h with h | h
    · exact (mem_skillPass.mp h).1
    · rcases mem_mostCommon h with ⟨m, hm⟩
      exact List.mem_of_mem_filter (mem_jdCounter hm)
  · exact (mem_skillPass.mp h).1

/-- Claim C4: the selector adds every JD token that is a known skill;
when at least 5 skills were found it adds nothing else, and when fewer
than 5 were found the target set is exactly the skills plus the 10 most
common non-stop-word tokens. -/
theorem selector_structure (ws : List Str) :
    (∀ w ∈ ws, w ∈ TECH_SKILLS → w ∈ selectTargetKeywords ws) ∧
    (5 ≤ (skillPass ws).length → selectTargetKeywords ws = skillPass ws) ∧
    ((skillPass ws).length < 5 →
      ∀ k, k ∈ selectTargetKeywords ws ↔
        k ∈ skillPass ws ∨
          k ∈ mostCommon 10 (jdCounter (ws.filter
            (fun w => ! decide (w ∈ COMMON_STOP_WORDS))))) := by
  refine ⟨?_, ?_, ?_⟩
  · intro w hw hsk
    unfold selectTargetKeywords
    split
    · rw [mem_foldl_addUnique]
      exact Or.inl (mem_skillPass.mpr ⟨hw, hsk⟩)
    · exact mem_skillPass.mpr ⟨hw, hsk⟩
  · intro h5
    unfold selectTargetKeywords
    rw [if_neg (by omega)]
  · intro h5 k
    unfold selectTargetKeywords
    rw [if_pos h5, mem_foldl_addUnique]

/-- Witness for selector_structure on a concrete JD token list. -/
theorem selector_structure_wit :
    "python".toList ∈ selectTargetKeywords (["python", "java"].map String.toList) ↔
      "python".toList ∈ skillPass (["python", "java"].map String.toList) ∨
        "python".toList ∈ mostCommon 10 (jdCounter
          ((["python", "java"].map String.toList).filter
            (fun w => ! decide (w ∈ COMMON_STOP_WORDS)))) :=
  (selector_structure _).2.2 (by decide) _

/-- Target keywords inherit the token shape from the tokenizer. -/
theorem target_token_props {jd k : Str}
    (hk : k ∈ selectTargetKeywords (clean_text jd)) :
    2 < k.length ∧ ∀ c ∈ k, isAlnumLower c = true :=
  clean_text_props k (mem_selectTargetKeywords hk)

/-- Claim C10: every derived target keyword is a single lowercase
alphanumeric token of length greater than 2; hence the multi-word,
punctuated or short lexicon entries can never be target keywords. -/
theorem targets_are_tokens (jd : Str) :
    (∀ k ∈ selectTargetKeywords (clean_text jd),
      2 < k.length ∧ ∀ c ∈ k, isAlnumLower c = true) ∧
    (∀ s ∈ EXCLUDED, s ∉ selectTargetKeywords (clean_text jd)) := by
  refine ⟨fun k hk => target_token_props hk, ?_⟩
  intro s hs hmem
  have hp := target_token_props hmem
  simp only [EXCLUDED, List.map_cons, List.map_nil, List.mem_cons,
    List.not_mem_nil, or_false] at hs
  rcases hs with rfl | rfl | rfl | rfl | rfl | rfl | rfl <;>
    exact absurd hp (by decide)

/-- Witness for targets_are_tokens on a concrete JD. -/
theorem targets_are_tokens_wit :
    "machine learning".toList ∉
      selectTargetKeywords (clean_text ("We use machine learning and python".toList)) :=
  (targets_are_tokens _).2 _ (by decide)

/-- Scaling numerator and denominator by the same positive factor
commutes with the binade normalisation. -/
theorem normPos_scale (a : Nat) (ha : 0 < a) : ∀ (fuel n d : Nat) (s : Int),
    normPos fuel (a * n) (a * d) s =
      (a * (normPos fuel n d s).1, a * (normPos fuel n d s).2.1,
        (normPos fuel n d s).2.2) := by
  intro fuel
  induction fuel with
  | zero =>
    intro n d s
    rfl
  | succ fuel ih =>
    intro n d s
    have e1 : TWO52 * (a * d) = a * (TWO52 * d) := by ring
    have e2 : TWO53 * (a * d) = a * (TWO53 * d) := by ring
    have e3 : 2 * (a * n) = a * (2 * n) := by ring
    have e4 : 2 * (a * d) = a * (2 * d) := by ring
    show (if a * n < TWO52 * (a * d) then normPos fuel (2 * (a * n)) (a * d) (s - 1)
      else if TWO53 * (a * d) ≤ a * n then normPos fuel (a * n) (2 * (a * d)) (s + 1)
      else (a * n, a * d, s)) = _
    simp only [e1, e2, e3, e4, Nat.mul_lt_mul_left ha, mul_le_mul_left ha]
    by_cases h1 : n < TWO52 * d
    · have hR : normPos (fuel + 1) n d s = normPos fuel (2 * n) d (s - 1) := by
        show (if n < TWO52 * d then normPos fuel (2 * n) d (s - 1)
          else if TWO53 * d ≤ n then normPos fuel n (2 * d) (s + 1)
          else (n, d, s)) = _
        rw [if_pos h1]
      rw [if_pos h1, hR, ih]
    · by_cases h2 : TWO53 * d ≤ n
      · have hR : normPos (fuel + 1) n d s = normPos fuel n (2 * d) (s + 1) := by
          show (if n < TWO52 * d then normPos fuel (2 * n) d (s - 1)
            else if TWO53 * d ≤ n then normPos fuel n (2 * d) (s + 1)
            else (n, d, s)) = _
          rw [if_neg h1, if_pos h2]
        rw [if_neg h1, if_pos h2, hR, ih]
      · have hR : normPos (fuel + 1) n d s = (n, d, s) := by
          show (if n < TWO52 * d then normPos fuel (2 * n) d (s - 1)
            else if TWO53 * d ≤ n then normPos fuel n (2 * d) (s + 1)
            else (n, d, s)) = _
          rw [if_neg h1, if_neg h2]
        rw [if_neg h1, if_neg h2, hR]

/-- Round-to-nearest-even is invariant under scaling numerator and
denominator by the same positive factor. -/
theorem roundHalfEven_scale (a x y : Nat) (ha : 0 < a) :
    roundHalfEven (a * x) (a * y) = roundHalfEven x y := by
  unfold roundHalfEven
  have e : 2 * (a * (x % y)) = a * (2 * (x % y)) := by ring
  rw [Nat.mul_div_mul_left _ _ ha, Nat.mul_mod_mul_left]
  simp only [e, Nat.mul_lt_mul_left ha]

/-- Dividing a positive count by itself rounds to exactly one. -/
theorem roundPair_self {n : Nat} (h : n ≠ 0) : roundPair n n = (TWO52, TWO52) := by
  have ha : 0 < n := Nat.pos_of_ne_zero h
  have hbase : normPos 4400 1 1 0 = (TWO52, 1, -52) := by decide
  have hs : normPos 4400 n n 0 = (n * TWO52, n * 1, -52) := by
    have h2 := normPos_scale n ha 4400 1 1 0
    rw [hbase] at h2
    simpa using h2
  have hr : roundHalfEven (n * TWO52) (n * 1) = roundHalfEven TWO52 1 :=
    roundHalfEven_scale n TWO52 1 ha
  unfold roundPair
  rw [if_neg h, hs]
  show (if (0 : Int) ≤ -52 then _ else _) = _
  rw [if_neg (by decide)]
  show (roundHalfEven (n * TWO52) (n * 1), 2 ^ (-(-52 : Int)).toNat) = _
  rw [hr]
  decide

/-- A full score: when found equals total and total is positive, the
double-precision computation yields exactly 100. -/
theorem computeScore_self {n : Nat} (h : n ≠ 0) : computeScore n n = 100 := by
  unfold computeScore
  rw [if_neg h, roundPair_self h]
  decide

/-- Ordered-set insertion preserves freedom from duplicates. -/
theorem addUnique_nodup {l : List Str} {x : Str} (h : l.Nodup) :
    (addUnique l x).Nodup := by
  unfold addUnique
  split
  · exact h
  · rename_i hx
    rw [List.nodup_append]
    refine ⟨h, List.nodup_singleton x, ?_⟩
    intro a ha hax
    rw [List.mem_singleton] at hax
    exact hx (hax ▸ ha)

/-- Ordered-set insertion grows the list by at most one element. -/
theorem length_addUnique {l : List Str} {x : Str} :
    (addUnique l x).length ≤ l.length + 1 := by
  unfold addUnique
  split
  · omega
  · simp

/-- Folding ordered-set insertions adds at most one element per
inserted item. -/
theorem length_foldl_addUnique : ∀ (l t : List Str),
    (l.foldl addUnique t).length ≤ t.length + l.length := by
  intro l
  induction l with
  | nil =>
    intro t
    simp
  | cons x xs ih =>
    intro t
    simp only [List.foldl_cons, List.length_cons]
    calc ((xs.foldl addUnique (addUnique t x)).length)
        ≤ (addUnique t x).length + xs.length := ih _
      _ ≤ t.length + 1 + xs.length := by
          have := @length_addUnique t x
          omega
      _ = t.length + (xs.length + 1) := by omega

/-- The skill pass produces a duplicate-free list. -/
theorem skillPass_nodup (ws : List Str) : (skillPass ws).Nodup := by
  unfold skillPass
  have aux : ∀ (l : List Str) (acc : List Str), acc.Nodup →
      (l.foldl (fun acc w => if w ∈ TECH_SKILLS then addUnique acc w else acc) acc).Nodup := by
    intro l
    induction l with
    | nil => exact fun acc h => h
    | cons w l ih =>
      intro acc h
      simp only [List.foldl_cons]
      apply ih
      split
      · exact addUnique_nodup h
      · exact h
  exact aux ws [] List.nodup_nil

/-- The target keyword list never exceeds the 43 lexicon skills: at
least 5 skills means the skill pass alone (a duplicate-free sublist of
TECH_SKILLS), and fewer than 5 means at most 4 skills plus the 10 most
common tokens. -/
theorem selectTargetKeywords_length_le (ws : List Str) :
    (selectTargetKeywords ws).length ≤ 43 := by
  unfold selectTargetKeywords
  split
  · rename_i h5
    calc ((mostCommon 10 (jdCounter (ws.filter
          (fun w => ! decide (w ∈ COMMON_STOP_WORDS))))).foldl addUnique
            (skillPass ws)).length
        ≤ (skillPass ws).length + (mostCommon 10 (jdCounter (ws.filter
            (fun w => ! decide (w ∈ COMMON_STOP_WORDS))))).length :=
          length_foldl_addUnique _ _
      _ ≤ 4 + 10 := by
          have h10 : (mostCommon 10 (jdCounter (ws.filter
              (fun w => ! decide (w ∈ COMMON_STOP_WORDS))))).length ≤ 10 := by
            unfold mostCommon
            rw [List.length_map]
            exact List.length_take_le _ _
          omega
      _ ≤ 43 := by omega
  · have hsub : skillPass ws ⊆ TECH_SKILLS := fun x hx => (mem_skillPass.mp hx).2
    have hlen := ((skillPass_nodup ws).subperm hsub).length_le
    have h43 : TECH_SKILLS.length = 43 := by decide
    omega

set_option maxRecDepth 8000 in
set_option maxHeartbeats 1000000 in
/-- Exactness table: for totals up to 43 the double-precision score
agrees with exact truncation. -/
theorem score_table : ∀ t : Nat, t ≤ 43 → ∀ f : Nat, f ≤ t →
    computeScore f t = 100 * f / t := by decide

set_option maxRecDepth 100000 in
/-- Claim C1 counterexample: with 50 targets of which 29 are found, the
matcher returns 57 although exact truncation of 100 * 29 / 50 is 58;
the double-precision product int((29/50)*100) loses the exact value. -/
theorem score_trunc_cex :
    (matchFound (clean_text cexResume) cexResume cexTargets).length = 29 ∧
    cexTargets.length = 50 ∧
    matchScore (clean_text cexResume) cexResume cexTargets = 57 ∧
    100 * (matchFound (clean_text cexResume) cexResume cexTargets).length /
      cexTargets.length = 58 := by decide

/-- Claim C1 as amended: the score equals exact truncation of
100 * found / total whenever the target list has at most 43 elements, a
bound every selector-derived target set satisfies; the score is 0 for
an empty target list; for larger target lists the double-precision
arithmetic of the source can differ from exact truncation. -/
theorem score_trunc_amended (tokens : List Str) (raw : Str) (targets : List Str) :
    (targets.length ≤ 43 →
      matchScore tokens raw targets =
        100 * (matchFound tokens raw targets).length / targets.length) ∧
    (targets = [] → matchScore tokens raw targets = 0) ∧
    (∀ jdWords : List Str, (selectTargetKeywords jdWords).length ≤ 43) := by
  refine ⟨?_, ?_, fun jdWords => selectTargetKeywords_length_le jdWords⟩
  · intro h
    unfold matchScore
    exact score_table targets.length h _
      (by unfold matchFound; exact List.length_filter_le _ _)
  · intro h
    subst h
    rfl

/-- Witness for score_trunc_amended at a concrete matcher input. -/
theorem score_trunc_amended_wit :
    matchScore [("python".toList)] ("python".toList) [("python".toList)] =
      100 * (matchFound [("python".toList)] ("python".toList)
        [("python".toList)]).length / ([("python".toList)] : List Str).length :=
  (score_trunc_amended _ _ _).1 (by decide)

/-- Claim C6 counterexample: a JD whose derived target set is empty
makes the hypothesis of the claim vacuously true while the score is 0,
not 100. -/
theorem score100_vacuous_cex :
    (∀ k ∈ selectTargetKeywords (clean_text ("zz yy".toList)),
      k <:+: ("hello".toList)) ∧
    matchScore (clean_text ("hello".toList)) ("hello".toList)
      (selectTargetKeywords (clean_text ("zz yy".toList))) = 0 := by
  constructor
  · intro k hk
    rw [show selectTargetKeywords (clean_text ("zz yy".toList)) = [] from by decide] at hk
    simp at hk
  · decide

/-- Claim C6 as amended: when the derived target set is nonempty and
every target keyword occurs literally in the raw resume text, the score
is 100. -/
theorem score100_when_all_present (resumeText jdText : Str)
    (hne : selectTargetKeywords (clean_text jdText) ≠ [])
    (hall : ∀ k ∈ selectTargetKeywords (clean_text jdText), k <:+: resumeText) :
    matchScore (clean_text resumeText) resumeText
      (selectTargetKeywords (clean_text jdText)) = 100 := by
  have hfill : matchFound (clean_text resumeText) resumeText
      (selectTargetKeywords (clean_text jdText)) =
      selectTargetKeywords (clean_text jdText) := by
    unfold matchFound
    rw [List.filter_eq_self]
    intro k hk
    have hprops := target_token_props hk
    have hfix : k.map pyLower = k := map_pyLower_fix k hprops.2
    have hinf : k.map pyLower <:+: resumeText.map pyLower := (hall k hk).map pyLower
    rw [hfix] at hinf
    unfold keywordHit
    simp [hinf]
  unfold matchScore
  rw [hfill]
  exact computeScore_self (fun h0 => hne (List.length_eq_zero.mp h0))

/-- Witness for score100_when_all_present on concrete texts. -/
theorem score100_when_all_present_wit :
    matchScore (clean_text ("I use python daily".toList))
      ("I use python daily".toList)
      (selectTargetKeywords (clean_text ("python python".toList))) = 100 :=
  score100_when_all_present _ _ (by decide) (by decide)

/-- Membership in splits characterises adjacent decompositions. -/
theorem mem_splits {s : Str} {p : Str × Str} : p ∈ splits s ↔ s = p.1 ++ p.2 := by
  constructor
  · intro hp
    rcases List.mem_map.mp hp with ⟨i, _, rfl⟩
    exact (List.take_append_drop i s).symm
  · intro he
    rw [splits, List.mem_map]
    refine ⟨p.1.length, List.mem_range.mpr (Nat.lt_succ_of_le ?_), ?_⟩
    · rw [he, List.length_append]
      omega
    · rw [he, List.take_left, List.drop_left, Prod.mk.eta]

/-- A search over all decompositions succeeds exactly when some
decomposition satisfies the continuation. -/
theorem any_splits {s : Str} {f : Str × Str → Bool} :
    (splits s).any f = true ↔ ∃ a b, s = a ++ b ∧ f (a, b) = true := by
  rw [List.any_eq_true]
  constructor
  · rintro ⟨⟨a, b⟩, hp, hf⟩
    exact ⟨a, b, mem_splits.mp hp, hf⟩
  · rintro ⟨a, b, he, hf⟩
    exact ⟨(a, b), mem_splits.mpr he, hf⟩

/-- Matching one literal character succeeds exactly on strings headed
by that character with a matching tail. -/
theorem guardChar_iff {ch : Char} {f : Str → Bool} {r : Str} :
    guardChar ch f r = true ↔ ∃ rest, r = ch :: rest ∧ f rest = true := by
  cases r with
  | nil => simp [guardChar]
  | cons c rest =>
    simp only [guardChar, Bool.and_eq_true, beq_iff_eq]
    constructor
    · rintro ⟨rfl, hf⟩
      exact ⟨rest, rfl, hf⟩
    · rintro ⟨rest', he, hf⟩
      cases he
      exact ⟨rfl, hf⟩

/-- Unfolding the candidate conditions of the email pattern. -/
theorem emailTail_iff {pre l d t post : Str} :
    emailTail pre l d t post = true ↔
      (l ≠ [] ∧ (∀ c ∈ l, isLocalChar c = true) ∧
        d ≠ [] ∧ (∀ c ∈ d, isLocalChar c = true) ∧
        2 ≤ t.length ∧ t.length ≤ 4 ∧ (∀ c ∈ t, isWordChar c = true) ∧
        lastIsWord pre ≠ headIsWord l ∧ headIsWord post = false) := by
  simp [emailTail, Bool.and_eq_true, List.all_eq_true, decide_eq_true_eq,
    Bool.not_eq_true', List.isEmpty_eq_false, bne_iff_ne, and_assoc]

/-- Claim C7 counterexample: the source regex accepts a digit TLD (it
uses word characters), which the pattern worded in the specification,
with a TLD of letters only, rejects; conversely the specification
pattern, lacking the word-boundary anchors of the regex, accepts a text
the source rejects. -/
theorem email_pattern_cex :
    (hasEmail ("a@b.12".toList) = true ∧
      specEmailCheck ("a@b.12".toList) = false) ∧
    (hasEmail (".-@x.co".toList) = false ∧
      specEmailCheck (".-@x.co".toList) = true) := by
  decide

/-- Claim C7 as amended: the email check passes exactly when the text
decomposes around a local part, at sign, domain, dot, and a TLD of 2 to
4 word characters, with the word-boundary anchors of the regex at both
ends of the match. -/
theorem email_regex_iff (text : Str) : hasEmail text = true ↔ EmailMatch text := by
  simp only [hasEmail, EmailMatch, any_splits, guardChar_iff, emailTail_iff]
  constructor
  · rintro ⟨pre, b, rfl, l, r2, rfl, rest, rfl, d, r4, rfl, r5, rfl, t, post, rfl, hc⟩
    exact ⟨pre, l, d, t, post, rfl, hc⟩
  · rintro ⟨pre, l, d, t, post, rfl, hc⟩
    exact ⟨pre, _, rfl, l, _, rfl, _, rfl, d, _, rfl, _, rfl, t, post, rfl, hc⟩

/-- Witness for email_regex_iff on a concrete text. -/
theorem email_regex_iff_wit : EmailMatch ("a@b.cd".toList) :=
  (email_regex_iff ("a@b.cd".toList)).mp (by decide)

/-- Claim C2: for every resume token list, raw text and target list,
the found and missing lists partition the target list: an element is a
target exactly when it is found or missing, and no element is both. -/
theorem found_missing_partition (tokens : List Str) (raw : Str) (targets : List Str)
    (k : Str) :
    ((k ∈ matchFound tokens raw targets ∨ k ∈ matchMissing tokens raw targets) ↔
      k ∈ targets) ∧
    ((k ∈ matchFound tokens raw targets ∧ k ∈ matchMissing tokens raw targets) ↔
      False) := by
  cases h : keywordHit tokens (raw.map pyLower) k <;>
    simp [matchFound, matchMissing, List.mem_filter, h]

/-- Witness for found_missing_partition at a concrete matcher input. -/
theorem found_missing_partition_wit :
    (((['q'] : Str) ∈ matchFound [['q']] ['q'] [['q']] ∨
        (['q'] : Str) ∈ matchMissing [['q']] ['q'] [['q']]) ↔
      (['q'] : Str) ∈ ([[('q' : Char)]] : List Str)) ∧
    (((['q'] : Str) ∈ matchFound [['q']] ['q'] [['q']] ∧
        (['q'] : Str) ∈ matchMissing [['q']] ['q'] [['q']]) ↔ False) :=
  found_missing_partition [['q']] ['q'] [['q']] ['q']

/-- Claim C3: a target keyword is found exactly when it is one of the
resume tokens or an infix of the lowercased raw text, and missing
exactly otherwise. -/
theorem found_iff_hit (tokens : List Str) (raw : Str) (targets : List Str) (k : Str)
    (hk : k ∈ targets) :
    (k ∈ matchFound tokens raw targets ↔
      (k ∈ tokens ∨ k <:+: raw.map pyLower)) ∧
    (k ∈ matchMissing tokens raw targets ↔
      ¬ (k ∈ tokens ∨ k <:+: raw.map pyLower)) := by
  simp [matchFound, matchMissing, List.mem_filter, hk, keywordHit,
    Bool.or_eq_true, decide_eq_true_eq, not_or]

/-- Witness for found_iff_hit at a concrete matcher input. -/
theorem found_iff_hit_wit :
    ((['p'] : Str) ∈ matchFound [['p']] ['p'] [['p']] ↔
      ((['p'] : Str) ∈ ([[('p' : Char)]] : List Str) ∨
        (['p'] : Str) <:+: (['p'] : Str).map pyLower)) ∧
    ((['p'] : Str) ∈ matchMissing [['p']] ['p'] [['p']] ↔
      ¬ ((['p'] : Str) ∈ ([[('p' : Char)]] : List Str) ∨
        (['p'] : Str) <:+: (['p'] : Str).map pyLower)) :=
  found_iff_hit [['p']] ['p'] [['p']] ['p'] (by decide)

/-- Claim C8: the formatting auditor returns exactly six checks with
the documented labels in order, and the fifth and sixth checks pass for
every input. -/
theorem format_checks_shape (text : Str) :
    (check_formatting_rules text).length = 6 ∧
    (check_formatting_rules text).map FormatCheck.label =
      ["Contact Email".toList, "Phone Number".toList, "Action Verbs".toList,
       "Metrics/Numbers".toList, "Consistent Formatting".toList,
       "No Typos".toList] ∧
    ((check_formatting_rules text)[4]?).map FormatCheck.pass = some true ∧
    ((check_formatting_rules text)[5]?).map FormatCheck.pass = some true :=
  ⟨rfl, rfl, rfl, rfl⟩

/-- Witness for format_checks_shape on a concrete text. -/
theorem format_checks_shape_wit :
    (check_formatting_rules ("hi".toList)).length = 6 ∧
    (check_formatting_rules ("hi".toList)).map FormatCheck.label =
      ["Contact Email".toList, "Phone Number".toList, "Action Verbs".toList,
       "Metrics/Numbers".toList, "Consistent Formatting".toList,
       "No Typos".toList] ∧
    ((check_formatting_rules ("hi".toList))[4]?).map FormatCheck.pass = some true ∧
    ((check_formatting_rules ("hi".toList))[5]?).map FormatCheck.pass = some true :=
  format_checks_shape ("hi".toList)

/-- Claim C9: the tip generator yields three tips when nothing is
missing and four otherwise; the first tip is chosen by the 50 and 80
thresholds, the second names at most the first three missing keywords
comma-joined, and the final two tips are fixed. -/
theorem tips_shape (score : Int) (missing : List Str) :
    (missing = [] → generate_optimization_tips score missing =
      [(if score < 50 then TIP_LOW else if score < 80 then TIP_MID else TIP_HIGH),
       TIP_VERBS, TIP_QUANT]) ∧
    (missing ≠ [] → generate_optimization_tips score missing =
      [(if score < 50 then TIP_LOW else if score < 80 then TIP_MID else TIP_HIGH),
       "Try to weave in these top missing keywords: ".toList ++
         List.intercalate ", ".toList (missing.take 3) ++ ".".toList,
       TIP_VERBS, TIP_QUANT]) ∧
    (missing = [] → (generate_optimization_tips score missing).length = 3) ∧
    (missing ≠ [] → (generate_optimization_tips score missing).length = 4) := by
  rcases missing with _ | ⟨m, ms⟩ <;>
    refine ⟨?_, ?_, ?_, ?_⟩ <;> intro hm <;>
      first
      | exact absurd rfl hm
      | exact absurd hm (List.cons_ne_nil _ _)
      | (by_cases h1 : score < 50 <;> by_cases h2 : score < 80 <;>
          simp [generate_optimization_tips, missingTip, h1, h2])

/-- Witness for tips_shape at score 30 with missing docker and aws. -/
theorem tips_shape_wit :
    generate_optimization_tips 30 (["docker", "aws"].map String.toList) =
      [TIP_LOW,
       "Try to weave in these top missing keywords: docker, aws.".toList,
       TIP_VERBS, TIP_QUANT] :=
  ((tips_shape 30 (["docker", "aws"].map String.toList)).2.1 (by decide)).trans
    (by decide)

end ATS
